import Mathlib

/-!
Verification development for the browser-side voice-command and dictation
layer (`frontend/public/js/voice.js`, first `VoiceController` definition in
that file, plus the `ScribeStorage` key-value facade).

The JavaScript source is shallowly embedded:
* strings are Lean `String` / `List Char` (the scenarios are ASCII, so the
  ASCII case-folding used here coincides with `toLowerCase`/`toUpperCase`);
* the regular expressions in the source are transcribed literally into a
  small executable backtracking matcher (`RE` / `reMatch`) whose search
  order (leftmost position, alternatives left-first, quantifiers greedy
  with backtracking) matches the JavaScript engine for these patterns;
* the mutable controller fields become an explicit `VoiceState`, and
  callback invocations (`onCommand`, `onTranscript`, `onMRNTemplateDetected`,
  `onListenStateChange`) become an emitted list of `VEvent`s;
* `localStorage` becomes an association list; the JSON session blob is
  modelled by its parsed record (serialization is injective and its exact
  text is irrelevant to the claims about the plain-string keys).
-/

/-! ## Characters, trimming, case folding -/

/-- JavaScript `\s` (ASCII fragment; the inputs considered are ASCII). -/
def isWs (c : Char) : Bool :=
  c = ' ' || c = '\t' || c = '\n' || c = '\r' || c.toNat = 11 || c.toNat = 12

/-- JavaScript word character for `\b`: `[A-Za-z0-9_]`. -/
def isWordChar (c : Char) : Bool :=
  ('A' ≤ c && c ≤ 'Z') || ('a' ≤ c && c ≤ 'z') || ('0' ≤ c && c ≤ '9') || c = '_'

def isAsciiAlpha (c : Char) : Bool :=
  ('A' ≤ c && c ≤ 'Z') || ('a' ≤ c && c ≤ 'z')

def isUpperAlpha (c : Char) : Bool := 'A' ≤ c && c ≤ 'Z'

/-- ASCII lower-casing of one character (agrees with `toLowerCase` on ASCII). -/
def lowerChar (c : Char) : Char :=
  if 'A' ≤ c && c ≤ 'Z' then Char.ofNat (c.toNat + 32) else c

/-- ASCII upper-casing of one character (agrees with `toUpperCase` on ASCII). -/
def upperChar (c : Char) : Char :=
  if 'a' ≤ c && c ≤ 'z' then Char.ofNat (c.toNat - 32) else c

def trimList (l : List Char) : List Char :=
  ((l.dropWhile isWs).reverse.dropWhile isWs).reverse

/-- JavaScript `String.prototype.trim`. -/
def trimS (s : String) : String := ⟨trimList s.data⟩

/-- JavaScript `String.prototype.toLowerCase` (ASCII). -/
def toLowerS (s : String) : String := ⟨s.data.map lowerChar⟩

/-- Does `hay` start with `needle`? -/
def seqStarts : List Char → List Char → Bool
  | [], _ => true
  | _ :: _, [] => false
  | c :: cs, h :: hs => c = h && seqStarts cs hs

/-- Substring containment, JavaScript `String.prototype.includes`. -/
def containsSeq (needle : List Char) : List Char → Bool
  | [] => seqStarts needle []
  | c :: hs => seqStarts needle (c :: hs) || containsSeq needle hs

/-! ## A small backtracking regex engine

Character classes are first order so that pattern-level side conditions
(`mustAlpha` below) are decidable. -/

inductive CC : Type
  | anyOf (cs : List Char)   -- an explicit character set (case variants listed)
  | upper                    -- `[A-Z]`
  | alphaCI                  -- `[A-Z]` under the `/i` flag
  | digit                    -- `\d`
  | ws                       -- `\s`
  | wsDash                   -- `[-\s]`
  | dot                      -- `.` (anything but a line terminator)
deriving DecidableEq

def CC.eval : CC → Char → Bool
  | .anyOf cs, c => cs.contains c
  | .upper, c => isUpperAlpha c
  | .alphaCI, c => isAsciiAlpha c
  | .digit, c => c.isDigit
  | .ws, c => isWs c
  | .wsDash, c => c = '-' || isWs c
  | .dot, c => !(c = '\n' || c = '\r')

inductive RE : Type
  | eps
  | cls (c : CC)
  | seq (a b : RE)
  | alt (a b : RE)
  | starC (c : CC)   -- greedy Kleene star of a character class
  | wb               -- `\b`
  | grp (a : RE)     -- capture group 1
deriving DecidableEq

/-- `\b`: exactly one side of the current position is a word character. -/
def wbAt (prev : Option Char) (s : List Char) : Bool :=
  (match prev with | some c => isWordChar c | none => false)
    != (match s with | c :: _ => isWordChar c | [] => false)

/-- The capture recorded so far (group 1), if any. -/
abbrev Cap := Option (List Char)

/-- Greedy matching of `c*`: consume as many characters as possible first,
backtracking one character at a time, exactly as the JavaScript engine does. -/
def starGreedy (c : CC) : Option Char → List Char → Cap →
    (Cap → Option Char → List Char → Option Cap) → Option Cap
  | prev, [], cap, k => k cap prev []
  | prev, ch :: rest, cap, k =>
    if c.eval ch then
      (starGreedy c (some ch) rest cap k).orElse (fun _ => k cap prev (ch :: rest))
    else k cap prev (ch :: rest)

/-- CPS backtracking matcher. `prev` is the character just before the current
position (for `\b`), `cap` the capture recorded so far, and `k` the
continuation receiving the capture, the new `prev` and the rest of the input.
Alternatives are tried left first; this reproduces the JavaScript
leftmost/greedy match order for the transcribed patterns. -/
def reMatch : RE → Option Char → List Char → Cap →
    (Cap → Option Char → List Char → Option Cap) → Option Cap
  | .eps, prev, s, cap, k => k cap prev s
  | .cls c, _, s, cap, k =>
    match s with
    | [] => none
    | ch :: rest => if c.eval ch then k cap (some ch) rest else none
  | .seq a b, prev, s, cap, k =>
    reMatch a prev s cap (fun cap' p' s' => reMatch b p' s' cap' k)
  | .alt a b, prev, s, cap, k =>
    (reMatch a prev s cap k).orElse (fun _ => reMatch b prev s cap k)
  | .starC c, prev, s, cap, k => starGreedy c prev s cap k
  | .wb, prev, s, cap, k => if wbAt prev s then k cap prev s else none
  | .grp a, prev, s, cap, k =>
    reMatch a prev s cap
      (fun _ p' s' => k (some (s.take (s.length - s'.length))) p' s')

/-- Scan for the leftmost match, like `String.prototype.match` without `/g`.
Returns the capture state of the first successful match. -/
def reSearch (r : RE) : Option Char → List Char → Option Cap
  | prev, [] => reMatch r prev [] none (fun cap _ _ => some cap)
  | prev, c :: rest =>
    match reMatch r prev (c :: rest) none (fun cap _ _ => some cap) with
    | some cap => some cap
    | none => reSearch r (some c) rest

/-- `regex.test(s)`. -/
def reTest (r : RE) (s : List Char) : Bool := (reSearch r none s).isSome

/-- `s.match(regex)` followed by the source's `match && match[1]` truthiness
check: a match whose group 1 is absent or empty counts as no match. -/
def reCapture (r : RE) (s : List Char) : Option (List Char) :=
  match reSearch r none s with
  | some (some cap) => if cap = [] then none else some cap
  | _ => none

/-! Pattern-building helpers. -/

/-- A case-sensitive literal character. -/
def chr (c : Char) : RE := .cls (.anyOf [c])

/-- A case-insensitive literal character (under `/i`). -/
def chrCI (c : Char) : RE := .cls (.anyOf [c, upperChar c, lowerChar c])

def reSeq (l : List RE) : RE := l.foldr RE.seq .eps

/-- A case-sensitive literal string. -/
def lit (s : String) : RE := reSeq (s.data.map chr)

/-- A case-insensitive literal string. -/
def litCI (s : String) : RE := reSeq (s.data.map chrCI)

def opt (a : RE) : RE := .alt a .eps

def plusC (c : CC) : RE := .seq (.cls c) (.starC c)

/-! ## MRN detection (`_detectMRN`, voice.js lines 293-332)

Each source regex is transcribed constructor-for-constructor. -/

/-- Pattern 1: `\bMRN[-\s]*([A-Z]{2,}[-\s]*\d+)\b` with `/i`. -/
def mrnPat1 : RE :=
  reSeq [.wb, chrCI 'M', chrCI 'R', chrCI 'N', .starC .wsDash,
    .grp (reSeq [.cls .alphaCI, .cls .alphaCI, .starC .alphaCI,
      .starC .wsDash, .cls .digit, .starC .digit]), .wb]

/-- Pattern 2: `\bMRN\s+(?:number\s+)?(\d+)\b` with `/i`. -/
def mrnPat2 : RE :=
  reSeq [.wb, chrCI 'M', chrCI 'R', chrCI 'N', plusC .ws,
    opt (reSeq [litCI "number", plusC .ws]), .grp (plusC .digit), .wb]

/-- Pattern 3: `\bpatient'?s?\s+MRN\s+(?:is\s+)?([A-Z]{2,}\d+)\b` with `/i`. -/
def mrnPat3 : RE :=
  reSeq [.wb, litCI "patient", opt (chr '\''), opt (chrCI 's'), plusC .ws,
    chrCI 'M', chrCI 'R', chrCI 'N', plusC .ws,
    opt (reSeq [litCI "is", plusC .ws]),
    .grp (reSeq [.cls .alphaCI, .cls .alphaCI, .starC .alphaCI,
      .cls .digit, .starC .digit]), .wb]

/-- Pattern 4: `\b[Mm]\s*[Rr]\s*[Nn]\s+([A-Z]{2,}\s*\d+|\d+)\b` (case sensitive). -/
def mrnPat4 : RE :=
  reSeq [.wb, .cls (.anyOf ['M', 'm']), .starC .ws, .cls (.anyOf ['R', 'r']),
    .starC .ws, .cls (.anyOf ['N', 'n']), plusC .ws,
    .grp (.alt
      (reSeq [.cls .upper, .cls .upper, .starC .upper, .starC .ws,
        .cls .digit, .starC .digit])
      (plusC .digit)), .wb]

/-- Pattern 5: `\b([A-Z]{2,}\d{3,})\b` (case sensitive). -/
def mrnPat5 : RE :=
  reSeq [.wb, .grp (reSeq [.cls .upper, .cls .upper, .starC .upper,
    .cls .digit, .cls .digit, .cls .digit, .starC .digit]), .wb]

def mrnPatterns : List RE := [mrnPat1, mrnPat2, mrnPat3, mrnPat4, mrnPat5]

/-- Strip all whitespace and hyphens from `match[1]`, then upper-case
(the two global `replace` calls followed by `toUpperCase`). -/
def normalizeMRNCap (cap : List Char) : List Char :=
  (cap.filter (fun c => !isWs c && c ≠ '-')).map upperChar

/-- The body of the pattern loop: normalize the capture, add the synthetic
`MRNAB` prefix to digits-only candidates, then require a letter and a digit
(`/[A-Z]/` and `/\d/`); `none` means the loop falls through to the next
pattern. -/
def mrnCandidate (cap : List Char) : List Char :=
  if normalizeMRNCap cap ≠ [] && (normalizeMRNCap cap).all Char.isDigit
  then "MRNAB".data ++ normalizeMRNCap cap
  else normalizeMRNCap cap

def mrnFromCapture (cap : List Char) : Option (List Char) :=
  if (mrnCandidate cap).any isUpperAlpha && (mrnCandidate cap).any Char.isDigit
  then some (mrnCandidate cap)
  else none

def detectMRNList : List RE → List Char → Option (List Char)
  | [], _ => none
  | p :: ps, text =>
    match reCapture p text with
    | some cap =>
      match mrnFromCapture cap with
      | some m => some m
      | none => detectMRNList ps text
    | none => detectMRNList ps text

/-- `_detectMRN` (voice.js lines 293-332). -/
def detectMRN (text : String) : Option String :=
  if text = "" then none
  else (detectMRNList mrnPatterns text.data).map (fun l => ⟨l⟩)

/-! ## Command regexes (`_parseCommand`, voice.js lines 449-483) -/

def noteRE : RE := reSeq [.wb, lit "note", .wb]
def createRE : RE := reSeq [.wb, lit "create", .wb]
def disconnectRE : RE := reSeq [.wb, lit "disconnect", .wb]
def connectRE : RE := reSeq [.wb, lit "connect", .wb]

/-- `\bunmute(\s+mic(rophone)?)?\b`. -/
def unmuteRE : RE :=
  reSeq [.wb, lit "unmute", opt (reSeq [plusC .ws, lit "mic", opt (lit "rophone")]), .wb]

/-- `\bmute(\s+mic(rophone)?)?\b`. -/
def muteRE : RE :=
  reSeq [.wb, lit "mute", opt (reSeq [plusC .ws, lit "mic", opt (lit "rophone")]), .wb]

/-- `\bstart( the)? (stream|video|camera)\b`. -/
def startStreamRE : RE :=
  reSeq [.wb, lit "start", opt (lit " the"), chr ' ',
    .alt (lit "stream") (.alt (lit "video") (lit "camera")), .wb]

/-- `\bstop( the)? (stream|video|camera)\b`. -/
def stopStreamRE : RE :=
  reSeq [.wb, lit "stop", opt (lit " the"), chr ' ',
    .alt (lit "stream") (.alt (lit "video") (lit "camera")), .wb]

/-- `\bhide( the)? (video|camera|preview)?\b`. -/
def hideRE : RE :=
  reSeq [.wb, lit "hide", opt (lit " the"), chr ' ',
    opt (.alt (lit "video") (.alt (lit "camera") (lit "preview"))), .wb]

/-- `\bshow( the)? (video|camera|preview)?\b`. -/
def showRE : RE :=
  reSeq [.wb, lit "show", opt (lit " the"), chr ' ',
    opt (.alt (lit "video") (.alt (lit "camera") (lit "preview"))), .wb]

/-- `\bsend( an)? urgent (message|alert)\b`. -/
def urgentSendRE : RE :=
  reSeq [.wb, lit "send", opt (lit " an"), chr ' ', lit "urgent", chr ' ',
    .alt (lit "message") (lit "alert"), .wb]

/-- `\burgent\b.*\bmessage\b`. -/
def urgentLooseRE : RE :=
  reSeq [.wb, lit "urgent", .wb, .starC .dot, .wb, lit "message", .wb]

/-! ## Template detection (`_detectTemplate`, voice.js lines 367-431) -/

def ciEqChar (a b : Char) : Bool := lowerChar a = lowerChar b

/-- Case-insensitive "starts with". -/
def ciStarts : List Char → List Char → Bool
  | [], _ => true
  | _ :: _, [] => false
  | c :: cs, h :: hs => ciEqChar c h && ciStarts cs hs

/-- First alternative (in source order) that matches at the head of `s` as a
whole word on the right (`\b` after the alternative). -/
def findWordAlt (alts : List (List Char)) (s : List Char) : Option (List Char) :=
  alts.find? (fun a =>
    ciStarts a s &&
      (match s.drop a.length with
       | [] => true
       | c :: _ => !isWordChar c))

/-- Worker for `wordReplaceCI`: while `skip > 0` the current character
belongs to an already-replaced match and is consumed silently (tracking
`prev` for later boundary checks); at `skip = 0` the next match is sought. -/
def wrGo (alts : List (List Char)) (repl : List Char) :
    Nat → Option Char → List Char → List Char
  | _, _, [] => []
  | n + 1, _, c :: rest => wrGo alts repl n (some c) rest
  | 0, prev, c :: rest =>
    let leftOk := match prev with | some p => !isWordChar p | none => true
    match (if leftOk then findWordAlt alts (c :: rest) else none) with
    | some a => repl ++ wrGo alts repl (a.length - 1) (some c) rest
    | none => c :: wrGo alts repl 0 (some c) rest

/-- Global, case-insensitive, word-bounded replacement: the source's
`str.replace(regexWithWordBoundariesAndAlternation, repl)` with `gi` flags.
Matching resumes after each match (`lastIndex`), and boundary checks read
the original string. -/
def wordReplaceCI (alts : List (List Char)) (repl : List Char)
    (prev : Option Char) (s : List Char) : List Char :=
  wrGo alts repl 0 prev s

/-- The `normalize` helper inside `_detectTemplate`: the four chained
synonym replacements. -/
def normTpl (s : List Char) : List Char :=
  let s1 := wordReplaceCI ["consultation".data, "consult".data] "consultation".data none s
  let s2 := wordReplaceCI ["soap".data] "soap".data none s1
  let s3 := wordReplaceCI ["progress".data] "progress".data none s2
  wordReplaceCI ["note".data, "notes".data] "note".data none s3

/-- `split(/\s+/)` restricted to its use here: the possible leading empty
field produced by JavaScript is dropped, which is observationally equal
because every use filters by `w.length > 3`. -/
def splitWsGo : List Char → List Char → List (List Char)
  | acc, [] => if acc.isEmpty then [] else [acc.reverse]
  | acc, c :: rest =>
    if isWs c then
      if acc.isEmpty then splitWsGo [] rest else acc.reverse :: splitWsGo [] rest
    else splitWsGo (c :: acc) rest

def splitWs (l : List Char) : List (List Char) := splitWsGo [] l

/-- `normalizedTemplate.split(/\s+/).filter(w => w.length > 3 && not a stopword)`. -/
def tplWords (name : List Char) : List (List Char) :=
  (splitWs name).filter
    (fun w => w.length > 3 && !(["form".data, "note".data, "the".data].contains w))

def joinSpace : List (List Char) → List Char
  | [] => []
  | [w] => w
  | w :: rest => w ++ ' ' :: joinSpace rest

/-- The template loop.  `matchRatio >= 0.7` is modelled as
`10 * matched >= 7 * total`; for the word counts that arise the IEEE-754
comparison in the source agrees with the exact rational comparison. -/
def detectTemplateGo (normText : List Char) : List String → Option String
  | [] => none
  | template :: ts =>
    let templateLower := (toLowerS template).data
    let normalizedTemplate := normTpl templateLower
    if containsSeq normalizedTemplate normText then some template
    else
      let templateWords := tplWords normalizedTemplate
      if templateWords.isEmpty then detectTemplateGo normText ts
      else
        let matchedWords := templateWords.filter (fun w => containsSeq w normText)
        if matchedWords.length * 10 ≥ templateWords.length * 7 then some template
        else
          let phrases := [templateWords.headD [] ++ ' ' :: templateWords.getLastD [],
            joinSpace (templateWords.take 2)]
          if phrases.any (fun p => p.length > 5 && containsSeq p normText) then
            some template
          else detectTemplateGo normText ts

/-- `_detectTemplate` (voice.js lines 367-431); the template list is the
controller's `_availableTemplates`. -/
def detectTemplate (availableTemplates : List String) (text : String) : Option String :=
  if text = "" then none
  else
    let templates := if availableTemplates.length > 0 then availableTemplates else []
    if templates.length = 0 then none
    else detectTemplateGo (normTpl (toLowerS text).data) templates

/-! ## The controller state machine (`VoiceController`, first definition)

Mutable fields become `VoiceState`; constructor options that the claims
exercise become `VoiceConfig`; callback invocations become `VEvent`s,
listed in the order the source fires them. -/

/-- One recognizer hypothesis slot: `res[0].transcript` and `res.isFinal`. -/
structure SRResult where
  text : String
  isFinal : Bool
deriving DecidableEq

/-- A fired callback: `onCommand`, `onTranscript`, `onMRNTemplateDetected`
or `onListenStateChange`. -/
inductive VEvent : Type
  | command (action rawText : String)
  | transcript (text : String) (isFinal : Bool)
  | mrnTemplate (mrn template text : String)
  | listenState (listening : Bool)
deriving DecidableEq, Repr

/-- Constructor options used by the embedded logic: `opts.customMap`
(a list of `{re, action}` overrides, the regex modelled by its `test`
function) and `opts.partialThrottleMs`. -/
structure VoiceConfig where
  customMap : List ((String → Bool) × String)
  throttleMs : Nat

/-- The controller's mutable fields. -/
structure VoiceState where
  listening : Bool
  hasRec : Bool
  lastPartialAt : Nat
  noteMode : Bool
  noteBuffer : String
  fullTranscript : String
  detectedMRN : Option String
  detectedTemplate : Option String
  availableTemplates : List String

/-- Field values set by the constructor (`_availableTemplates` starts `[]`;
`setTemplates` updates it later). -/
def initState : VoiceState :=
  { listening := false, hasRec := false, lastPartialAt := 0, noteMode := false,
    noteBuffer := "", fullTranscript := "", detectedMRN := none,
    detectedTemplate := none, availableTemplates := [] }

/-- `this._fullTranscript += (this._fullTranscript ? ' ' : '') + txt`
(also the `_noteBuffer` update, which uses the same idiom). -/
def appendT (acc txt : String) : String :=
  if acc = "" then txt else acc ++ " " ++ txt

/-- `finalSegments.join(' ')`. -/
def joinSp : List String → String
  | [] => ""
  | [x] => x
  | x :: xs => x ++ " " ++ joinSp xs

/-- `_emitStartNote` (voice.js lines 247-252). -/
def emitStartNote (st : VoiceState) : VoiceState × List VEvent :=
  if st.noteMode then (st, [])
  else ({ st with noteMode := true, noteBuffer := "" },
    [.command "start_note" "note"])

/-- `_emitStopNote` (voice.js lines 254-262). -/
def emitStopNote (st : VoiceState) : VoiceState × List VEvent :=
  if !st.noteMode then (st, [])
  else
    ({ st with noteMode := false, noteBuffer := "" },
      (if trimS st.noteBuffer ≠ "" then [.transcript (trimS st.noteBuffer) true]
       else []) ++
        [.command "stop_note" "create"])

/-- `if (this._detectedMRN && this._detectedTemplate) onMRNTemplateDetected({...})`:
the event fired at the end of `_detectMRNAndTemplate`, if any. -/
def mrnTemplateEvents (o1 o2 : Option String) (fullTranscript : String) : List VEvent :=
  match o1, o2 with
  | some m, some t => [.mrnTemplate m t fullTranscript]
  | _, _ => []

/-- The MRN half of `_detectMRNAndTemplate`: store a newly detected,
different MRN. -/
def detectStep1 (st : VoiceState) (text : String) : VoiceState :=
  match detectMRN text with
  | some m => if some m ≠ st.detectedMRN then { st with detectedMRN := some m } else st
  | none => st

/-- The template half of `_detectMRNAndTemplate`: store a newly detected,
different template. -/
def detectStep2 (st1 : VoiceState) (text : String) : VoiceState :=
  match detectTemplate st1.availableTemplates text with
  | some t =>
    if some t ≠ st1.detectedTemplate then { st1 with detectedTemplate := some t } else st1
  | none => st1

/-- `_detectMRNAndTemplate` (voice.js lines 266-291). -/
def detectMRNAndTemplate (st : VoiceState) (text : String) :
    VoiceState × List VEvent :=
  if text = "" then (st, [])
  else
    (detectStep2 (detectStep1 st text) text,
      mrnTemplateEvents (detectStep2 (detectStep1 st text) text).detectedMRN
        (detectStep2 (detectStep1 st text) text).detectedTemplate
        (detectStep2 (detectStep1 st text) text).fullTranscript)

/-- `for (const {re, action} of this._customMap) if (re.test(text)) return action`. -/
def findCustom (customMap : List ((String → Bool) × String)) (text : String) :
    Option String :=
  (customMap.find? (fun p => p.1 text)).map (fun p => p.2)

/-- The built-in rule chain of `_parseCommand`, in source order; the first
matching rule wins, exactly as the source's if-cascade returns on the
first successful `test`. -/
def builtinRules : List (RE × String) :=
  [(noteRE, "start_note"), (createRE, "stop_note"),
   (disconnectRE, "disconnect"), (connectRE, "connect"),
   (unmuteRE, "unmute"), (muteRE, "mute"),
   (startStreamRE, "start_stream"), (stopStreamRE, "stop_stream"),
   (hideRE, "hide_video"), (showRE, "show_video"),
   (urgentSendRE, "urgent"), (urgentLooseRE, "urgent")]

/-- The classification half of the built-in chain.  The `note`/`create`
side effects are re-attached by `parseCommandText` to exactly the branches
that trigger them in the source. -/
def classifyBuiltin (text : List Char) : Option String :=
  (builtinRules.find? (fun r => reTest r.1 text)).map (fun r => r.2)

/-- `_parseCommand` (voice.js lines 449-483): custom overrides first, then
the built-in chain; the `note`/`create` branches run `_emitStartNote` /
`_emitStopNote` as side effects, so the result carries the classified
action, the updated state and the events those emits fired. -/
def parseCommandText (cfg : VoiceConfig) (st : VoiceState) (text : String) :
    Option String × VoiceState × List VEvent :=
  if text = "" then (none, st, [])
  else
    match findCustom cfg.customMap text with
    | some action => (some action, st, [])
    | none =>
      match classifyBuiltin text.data with
      | some a =>
        if a = "start_note" then (some a, (emitStartNote st).1, (emitStartNote st).2)
        else if a = "stop_note" then (some a, (emitStopNote st).1, (emitStopNote st).2)
        else (some a, st, [])
      | none => (none, st, [])

/-- `_parseCommand` applied to `const text = String(s || '').toLowerCase().trim()`. -/
def parseCommand (cfg : VoiceConfig) (st : VoiceState) (s : String) :
    Option String × VoiceState × List VEvent :=
  parseCommandText cfg st (trimS (toLowerS s))

/-- The branch of `_onResult` taken once detection ran: `st2` and `evD` are
the state and events out of `_detectMRNAndTemplate`. -/
def handleFinalAfterDetect (cfg : VoiceConfig) (st2 : VoiceState)
    (evD : List VEvent) (finalTxt : String) : VoiceState × List VEvent :=
  if st2.noteMode then
    if reTest createRE (toLowerS finalTxt).data then
      ((emitStopNote { st2 with noteBuffer := appendT st2.noteBuffer finalTxt }).1,
        evD ++ [.transcript finalTxt true] ++
          (emitStopNote { st2 with noteBuffer := appendT st2.noteBuffer finalTxt }).2)
    else ({ st2 with noteBuffer := appendT st2.noteBuffer finalTxt },
      evD ++ [.transcript finalTxt true])
  else
    match (parseCommand cfg st2 (toLowerS finalTxt)).1 with
    | some action =>
      ((parseCommand cfg st2 (toLowerS finalTxt)).2.1,
        evD ++ (parseCommand cfg st2 (toLowerS finalTxt)).2.2 ++
          [.command action finalTxt])
    | none =>
      ((parseCommand cfg st2 (toLowerS finalTxt)).2.1,
        evD ++ (parseCommand cfg st2 (toLowerS finalTxt)).2.2 ++
          [.transcript finalTxt true])

/-- The final-results part of `_onResult` (voice.js lines 189-218), given
`finalTxt = finalSegments.join(' ')`. -/
def handleFinal (cfg : VoiceConfig) (st : VoiceState) (finalTxt : String) :
    VoiceState × List VEvent :=
  handleFinalAfterDetect cfg
    (detectMRNAndTemplate
      { st with fullTranscript := appendT st.fullTranscript finalTxt } finalTxt).1
    (detectMRNAndTemplate
      { st with fullTranscript := appendT st.fullTranscript finalTxt } finalTxt).2
    finalTxt

/-- `finalSegments`: every `isFinal` slot's trimmed text, in recognizer
order, empties skipped. -/
def collectFinals (results : List SRResult) : List String :=
  results.filterMap (fun r =>
    let t := trimS r.text
    if t ≠ "" && r.isFinal then some t else none)

/-- `latestInterim`: the trimmed text of the very last slot when that slot
is non-final and non-empty, otherwise `''`. -/
def latestInterimOf (results : List SRResult) : String :=
  match results.getLast? with
  | some r => if !r.isFinal && trimS r.text ≠ "" then trimS r.text else ""
  | none => ""

/-- `_onResult` (voice.js lines 158-219) for one recognizer callback.
`now` is `Date.now()`; `now - last >= throttle` is written additively so
that Nat subtraction cannot diverge from JavaScript arithmetic. -/
def onResult (cfg : VoiceConfig) (st : VoiceState) (now : Nat)
    (results : List SRResult) : VoiceState × List VEvent :=
  if latestInterimOf results ≠ "" && (collectFinals results).isEmpty then
    if st.lastPartialAt + cfg.throttleMs ≤ now then
      ({ st with lastPartialAt := now }, [.transcript (latestInterimOf results) false])
    else (st, [])
  else if !(collectFinals results).isEmpty then
    handleFinal cfg st (joinSp (collectFinals results))
  else (st, [])

/-- A listening session: a sequence of recognizer callbacks, each with its
`Date.now()` timestamp and result slots. -/
def processCallbacks (cfg : VoiceConfig) :
    VoiceState → List (Nat × List SRResult) → VoiceState × List VEvent
  | st, [] => (st, [])
  | st, (now, results) :: rest =>
    ((processCallbacks cfg (onResult cfg st now results).1 rest).1,
      (onResult cfg st now results).2 ++
        (processCallbacks cfg (onResult cfg st now results).1 rest).2)

/-- `stop()` (voice.js lines 106-113). -/
def stop (st : VoiceState) : VoiceState × List VEvent :=
  if !st.hasRec then (st, [])
  else if st.noteMode then
    ((emitStopNote { st with listening := false }).1,
      .listenState false :: (emitStopNote { st with listening := false }).2)
  else ({ st with listening := false }, [.listenState false])

/-- The `onCommand` actions fired in an event list. -/
def commandActions (evs : List VEvent) : List String :=
  evs.filterMap (fun e => match e with | .command a _ => some a | _ => none)

/-- The `onTranscript` invocations fired in an event list. -/
def transcriptEvents (evs : List VEvent) : List VEvent :=
  evs.filter (fun e => match e with | .transcript _ _ => true | _ => false)

/-- The documented `onCommand` action vocabulary (voice.js line 13). -/
def allowedActions : List String :=
  ["connect", "disconnect", "start_stream", "stop_stream", "mute", "unmute",
   "hide_video", "show_video", "urgent", "start_note", "stop_note"]

/-! ## Session store (`ScribeStorage`, scribe-storage.js)

`localStorage` is an association list from key to stored value.  The
session blob is stored JSON-serialized in the source; serialization is
injective and never unserialized into the plain-string keys, so the blob
is modelled by its parsed record (`StoreVal.blob`).  A parse failure (or a
missing entry) yields the empty record, as in the source's `catch`. -/

/-- The parsed `SESSION_DATA` blob: optional fields plus the timestamp. -/
structure SessionRec where
  mrn : Option String
  template : Option String
  transcript : Option String
  timestamp : Option Nat
deriving DecidableEq

def emptySession : SessionRec :=
  { mrn := none, template := none, transcript := none, timestamp := none }

/-- A stored value: a plain string, or the serialized session record. -/
inductive StoreVal : Type
  | str (v : String)
  | blob (r : SessionRec)
deriving DecidableEq

abbrev Store := List (String × StoreVal)

def keyMRN : String := "scribe_current_mrn"
def keyTemplate : String := "scribe_current_template"
def keyTranscript : String := "scribe_current_transcript"
def keySession : String := "scribe_session_data"

def setItem (k : String) (v : StoreVal) (s : Store) : Store :=
  (k, v) :: s.filter (fun p => p.1 ≠ k)

def getItem (k : String) (s : Store) : Option StoreVal :=
  (s.find? (fun p => p.1 = k)).map (fun p => p.2)

def removeItem (k : String) (s : Store) : Store :=
  s.filter (fun p => p.1 ≠ k)

/-- Object spread `{ ...base, ...upd }` on the session record: fields
present in `upd` overwrite `base`. -/
def mergeSession (base upd : SessionRec) : SessionRec :=
  { mrn := upd.mrn.orElse (fun _ => base.mrn),
    template := upd.template.orElse (fun _ => base.template),
    transcript := upd.transcript.orElse (fun _ => base.transcript),
    timestamp := upd.timestamp.orElse (fun _ => base.timestamp) }

/-- `getSessionData()`: parse the stored blob, `{}` on absence or parse
failure (a plain string stored under the session key cannot arise through
this API and is treated as a parse failure). -/
def getSessionData (s : Store) : SessionRec :=
  match getItem keySession s with
  | some (.blob r) => r
  | _ => emptySession

/-- `saveSessionData(data)`: merge into the existing blob and stamp
`Date.now()`. -/
def saveSessionData (now : Nat) (data : SessionRec) (s : Store) : Store :=
  let updated := { mergeSession (getSessionData s) data with timestamp := some now }
  setItem keySession (.blob updated) s

/-- `_updateSessionData(data)`. -/
def updateSessionData (now : Nat) (data : SessionRec) (s : Store) : Store :=
  saveSessionData now (mergeSession (getSessionData s) data) s

/-- `ScribeStorage.saveMRN`: no-op on a falsy MRN, otherwise store the
string and refresh the session blob. -/
def saveMRN (now : Nat) (mrn : String) (s : Store) : Store :=
  if mrn = "" then s
  else updateSessionData now { emptySession with mrn := some mrn }
    (setItem keyMRN (.str mrn) s)

/-- `ScribeStorage.getMRN`: `localStorage.getItem(KEY) || null`. -/
def getMRN (s : Store) : Option String :=
  match getItem keyMRN s with
  | some (.str v) => if v = "" then none else some v
  | _ => none

/-- `ScribeStorage.clearAll`: remove every key of `STORAGE_KEYS`. -/
def clearAll (s : Store) : Store :=
  removeItem keySession (removeItem keyTranscript (removeItem keyTemplate
    (removeItem keyMRN s)))

/-! ## Claim theorems -/

/-- A configuration with no caller-supplied override phrases. -/
def cfgEmpty : VoiceConfig := { customMap := [], throttleMs := 800 }

/-- C5: with an empty caller-supplied override list, the classifier maps
"unmute the microphone" to `unmute` (never `mute`) and "disconnect now" to
`disconnect` (never `connect`): the more specific phrase is tested before
the phrase it contains. -/
theorem command_precedence_unmute_disconnect :
    (parseCommand cfgEmpty initState "unmute the microphone").1 = some "unmute" ∧
    (parseCommand cfgEmpty initState "unmute the microphone").1 ≠ some "mute" ∧
    (parseCommand cfgEmpty initState "disconnect now").1 = some "disconnect" ∧
    (parseCommand cfgEmpty initState "disconnect now").1 ≠ some "connect" := by
  decide

/-- C6: "Consultation Note Form" filters to the single significant word
"consultation", so an utterance containing "consultation" but neither
"note" nor "form" matches (1/1 ≥ 0.70); for "Stress Test Exercise MPI",
whose filtered list has 3 words, an utterance containing exactly 1 of them
(1/3 ≈ 33%) does not match. -/
theorem template_fuzzy_threshold :
    tplWords (normTpl (toLowerS "Consultation Note Form").data) =
      ["consultation".data] ∧
    containsSeq "note".data "we will start a consultation today".data = false ∧
    containsSeq "form".data "we will start a consultation today".data = false ∧
    detectTemplate ["Consultation Note Form"] "we will start a consultation today" =
      some "Consultation Note Form" ∧
    (tplWords (normTpl (toLowerS "Stress Test Exercise MPI").data)).length = 3 ∧
    ((tplWords (normTpl (toLowerS "Stress Test Exercise MPI").data)).filter
      (fun w => containsSeq w (normTpl (toLowerS "the stress level was high").data))).length
      = 1 ∧
    detectTemplate ["Stress Test Exercise MPI"] "the stress level was high" = none := by
  decide

/-- C7: MRN extraction normalizes "MRN AB-123" and "MRN AB 123" to the same
value "AB123" (whitespace and hyphens stripped, upper-cased), and applying
`detectMRN` to that returned value yields the identical value. -/
theorem mrn_normalization_idempotent :
    detectMRN "MRN AB-123" = some "AB123" ∧
    detectMRN "MRN AB 123" = some "AB123" ∧
    detectMRN "AB123" = some "AB123" := by
  decide

/-! Association-list facts used for the session store. -/

theorem find?_filter_imp {α : Type} (p q : α → Bool) (l : List α)
    (h : ∀ x, p x = true → q x = true) : (l.filter q).find? p = l.find? p := by
  induction l with
  | nil => rfl
  | cons a l ih =>
    by_cases hq : q a = true
    · by_cases hp : p a = true <;>
        simp [List.filter_cons, hq, List.find?_cons, hp, ih]
    · have hp : ¬p a = true := fun hpa => hq (h a hpa)
      simp [List.filter_cons, hq, List.find?_cons, hp, ih]

theorem getItem_setItem_same (k : String) (v : StoreVal) (s : Store) :
    getItem k (setItem k v s) = some v := by
  simp [getItem, setItem, List.find?_cons]

theorem getItem_setItem_ne (k k' : String) (v : StoreVal) (s : Store)
    (h : k ≠ k') : getItem k (setItem k' v s) = getItem k s := by
  have hfil := find?_filter_imp (fun (p : String × StoreVal) => decide (p.1 = k))
    (fun p => decide (p.1 ≠ k')) s (by
      intro x hx
      simp only [decide_eq_true_eq] at hx ⊢
      simp only [hx, ne_eq]
      exact h)
  simp only [getItem, setItem]
  rw [List.find?_cons_of_neg _ (by simp [Ne.symm h]), hfil]

theorem getItem_removeItem_same (k : String) (s : Store) :
    getItem k (removeItem k s) = none := by
  have hnone : List.find? (fun (p : String × StoreVal) => decide (p.1 = k))
      (List.filter (fun p => decide (p.1 ≠ k)) s) = none := by
    refine List.find?_eq_none.mpr ?_
    intro x hx
    have hmem := (List.mem_filter.mp hx).2
    simp only [decide_eq_true_eq] at hmem ⊢
    exact hmem
  simp [getItem, removeItem, hnone]

theorem getItem_removeItem_ne (k k' : String) (s : Store) (h : k ≠ k') :
    getItem k (removeItem k' s) = getItem k s := by
  have hfil := find?_filter_imp (fun (p : String × StoreVal) => decide (p.1 = k))
    (fun p => decide (p.1 ≠ k')) s (by
      intro x hx
      simp only [decide_eq_true_eq] at hx ⊢
      simp only [hx, ne_eq]
      exact h)
  simp only [getItem, removeItem]
  rw [hfil]

/-- C9: saving a non-empty MRN and reading it back with no intervening
clear returns it unchanged; after `clearAll` the MRN reads back absent. -/
theorem mrn_round_trip (s s2 : Store) (m : String) (now : Nat) (hm : m ≠ "") :
    getMRN (saveMRN now m s) = some m ∧ getMRN (clearAll s2) = none := by
  constructor
  · have hks : keyMRN ≠ keySession := by decide
    simp only [saveMRN, if_neg hm, updateSessionData, saveSessionData, getMRN]
    rw [getItem_setItem_ne _ _ _ _ hks, getItem_setItem_same]
    simp [hm]
  · simp only [clearAll, getMRN]
    have h1 : keyMRN ≠ keySession := by decide
    have h2 : keyMRN ≠ keyTranscript := by decide
    have h3 : keyMRN ≠ keyTemplate := by decide
    rw [getItem_removeItem_ne _ _ _ h1, getItem_removeItem_ne _ _ _ h2,
      getItem_removeItem_ne _ _ _ h3, getItem_removeItem_same]

/-- C9 witness: the round trip at a concrete store and MRN. -/
theorem mrn_round_trip_witness :
    getMRN (saveMRN 7 "AB123" []) = some "AB123" ∧
    getMRN (clearAll [(keyMRN, .str "AB123")]) = none :=
  mrn_round_trip [] [(keyMRN, .str "AB123")] "AB123" 7 (by decide)

/-! Shape and preservation facts about the controller steps. -/

theorem mrnTemplateEvents_shape (o1 o2 : Option String) (ft : String) :
    commandActions (mrnTemplateEvents o1 o2 ft) = [] ∧
    transcriptEvents (mrnTemplateEvents o1 o2 ft) = [] := by
  rcases o1 <;> rcases o2 <;> simp [mrnTemplateEvents, commandActions, transcriptEvents]

theorem detectStep1_preserves (st : VoiceState) (t : String) :
    (detectStep1 st t).fullTranscript = st.fullTranscript ∧
    (detectStep1 st t).noteMode = st.noteMode ∧
    (detectStep1 st t).noteBuffer = st.noteBuffer ∧
    (detectStep1 st t).availableTemplates = st.availableTemplates ∧
    (detectStep1 st t).detectedTemplate = st.detectedTemplate := by
  unfold detectStep1
  repeat' split
  all_goals simp

theorem detectStep2_preserves (st : VoiceState) (t : String) :
    (detectStep2 st t).fullTranscript = st.fullTranscript ∧
    (detectStep2 st t).noteMode = st.noteMode ∧
    (detectStep2 st t).noteBuffer = st.noteBuffer ∧
    (detectStep2 st t).availableTemplates = st.availableTemplates ∧
    (detectStep2 st t).detectedMRN = st.detectedMRN := by
  unfold detectStep2
  repeat' split
  all_goals simp

theorem detect_preserves (st : VoiceState) (t : String) :
    (detectMRNAndTemplate st t).1.fullTranscript = st.fullTranscript ∧
    (detectMRNAndTemplate st t).1.noteMode = st.noteMode ∧
    (detectMRNAndTemplate st t).1.noteBuffer = st.noteBuffer ∧
    (detectMRNAndTemplate st t).1.availableTemplates = st.availableTemplates := by
  unfold detectMRNAndTemplate
  by_cases ht : t = ""
  · simp [ht]
  · simp only [if_neg ht]
    have h1 := detectStep1_preserves st t
    have h2 := detectStep2_preserves (detectStep1 st t) t
    exact ⟨by rw [h2.1, h1.1], by rw [h2.2.1, h1.2.1],
      by rw [h2.2.2.1, h1.2.2.1], by rw [h2.2.2.2.1, h1.2.2.2.1]⟩

theorem detect_events_shape (st : VoiceState) (t : String) :
    commandActions (detectMRNAndTemplate st t).2 = [] ∧
    transcriptEvents (detectMRNAndTemplate st t).2 = [] := by
  unfold detectMRNAndTemplate
  by_cases ht : t = ""
  · simp [ht, commandActions, transcriptEvents]
  · simp only [if_neg ht]
    exact mrnTemplateEvents_shape _ _ _

theorem emitStartNote_fullTranscript (st : VoiceState) :
    (emitStartNote st).1.fullTranscript = st.fullTranscript := by
  unfold emitStartNote
  split <;> simp

theorem emitStopNote_fullTranscript (st : VoiceState) :
    (emitStopNote st).1.fullTranscript = st.fullTranscript := by
  unfold emitStopNote
  split <;> simp

theorem parseCommandText_state_cases (cfg : VoiceConfig) (st : VoiceState)
    (text : String) :
    (parseCommandText cfg st text).2 = (st, []) ∨
    (parseCommandText cfg st text).2 = emitStartNote st ∨
    (parseCommandText cfg st text).2 = emitStopNote st := by
  unfold parseCommandText
  by_cases htext : text = ""
  · simp [htext]
  · rw [if_neg htext]
    rcases hfc : findCustom cfg.customMap text with _ | a
    · simp only [hfc]
      rcases hcb : classifyBuiltin text.data with _ | a
      · simp
      · simp only []
        split_ifs <;> simp
    · simp [hfc]

theorem parseCommand_state_cases (cfg : VoiceConfig) (st : VoiceState) (s : String) :
    (parseCommand cfg st s).2 = (st, []) ∨
    (parseCommand cfg st s).2 = emitStartNote st ∨
    (parseCommand cfg st s).2 = emitStopNote st :=
  parseCommandText_state_cases cfg st (trimS (toLowerS s))

theorem parseCommand_fullTranscript (cfg : VoiceConfig) (st : VoiceState)
    (s : String) : (parseCommand cfg st s).2.1.fullTranscript = st.fullTranscript := by
  rcases parseCommand_state_cases cfg st s with h | h | h <;> rw [h] <;>
    first
      | rfl
      | exact emitStartNote_fullTranscript st
      | exact emitStopNote_fullTranscript st

theorem handleFinalAfterDetect_fullTranscript (cfg : VoiceConfig)
    (st2 : VoiceState) (evD : List VEvent) (u : String) :
    (handleFinalAfterDetect cfg st2 evD u).1.fullTranscript = st2.fullTranscript := by
  unfold handleFinalAfterDetect
  split_ifs
  · simp [emitStopNote_fullTranscript]
  · simp
  · split <;> simp [parseCommand_fullTranscript]

theorem handleFinal_fullTranscript (cfg : VoiceConfig) (st : VoiceState)
    (u : String) :
    (handleFinal cfg st u).1.fullTranscript = appendT st.fullTranscript u := by
  unfold handleFinal
  rw [handleFinalAfterDetect_fullTranscript]
  have hd := (detect_preserves { st with fullTranscript := appendT st.fullTranscript u } u).1
  simpa using hd

/-! Transcript accumulation facts (session-wide order preservation). -/

theorem appendT_ne_empty (acc x : String) (hx : x ≠ "") : appendT acc x ≠ "" := by
  unfold appendT
  split_ifs with h
  · exact hx
  · intro hcontra
    have : (acc ++ " " ++ x).length = 0 := by rw [hcontra]; rfl
    simp [String.length_append] at this
    have h1 : (" " : String).length = 1 := rfl
    omega

theorem appendT_assoc (acc x z : String) (hx : x ≠ "") :
    appendT (appendT acc x) z = appendT acc (x ++ " " ++ z) := by
  by_cases ha : acc = ""
  · simp [appendT, ha, hx]
  · have hax : acc ++ " " ++ x ≠ "" := by
      intro hc
      have hlen : (acc ++ " " ++ x).length = 0 := by rw [hc]; rfl
      have h1 : (" " : String).length = 1 := rfl
      simp [String.length_append] at hlen
      omega
    have hx' : x ++ " " ++ z ≠ "" := by
      intro hc
      have hlen : (x ++ " " ++ z).length = 0 := by rw [hc]; rfl
      have h1 : (" " : String).length = 1 := rfl
      simp [String.length_append] at hlen
      omega
    have hax2 : acc ++ (" " ++ x) ≠ "" := by rw [← String.append_assoc]; exact hax
    simp [appendT, ha, hax, hax2, hx', String.append_assoc]

theorem foldl_appendT_joinSp (l : List String) (acc : String)
    (hl : l ≠ []) (hne : ∀ x ∈ l, x ≠ "") :
    List.foldl appendT acc l = appendT acc (joinSp l) := by
  induction l generalizing acc with
  | nil => exact absurd rfl hl
  | cons x xs ih =>
    cases xs with
    | nil => simp [joinSp]
    | cons y ys =>
      have hx : x ≠ "" := hne x (by simp)
      have hrest : ∀ z ∈ y :: ys, z ≠ "" := fun z hz => hne z (by simp [hz])
      have hjoin : joinSp (x :: y :: ys) = x ++ " " ++ joinSp (y :: ys) := rfl
      rw [List.foldl_cons, ih _ (by simp) hrest, hjoin, appendT_assoc acc x _ hx]

theorem collectFinals_ne_empty (rs : List SRResult) :
    ∀ f ∈ collectFinals rs, f ≠ "" := by
  intro f hf
  unfold collectFinals at hf
  rcases List.mem_filterMap.mp hf with ⟨r, _, hr⟩
  by_cases hc : trimS r.text ≠ "" && r.isFinal
  · rw [if_pos hc] at hr
    cases hr
    exact (Bool.and_eq_true _ _ ▸ hc).1 |> fun h => by
      simpa using h
  · rw [if_neg hc] at hr
    cases hr

theorem appendSp_ne_empty (a b : String) : a ++ " " ++ b ≠ "" := by
  intro hc
  have hlen : (a ++ " " ++ b).length = 0 := by rw [hc]; rfl
  have h1 : (" " : String).length = 1 := rfl
  simp [String.length_append] at hlen
  omega

theorem onResult_fullTranscript (cfg : VoiceConfig) (st : VoiceState)
    (now : Nat) (rs : List SRResult) :
    (onResult cfg st now rs).1.fullTranscript =
      List.foldl appendT st.fullTranscript (collectFinals rs) := by
  unfold onResult
  split_ifs with h1 h2 h3
  · have he : (collectFinals rs).isEmpty = true := by
      rcases Bool.and_eq_true _ _ |>.mp h1 with ⟨_, h⟩
      exact h
    simp [List.isEmpty_iff.mp he]
  · have he : (collectFinals rs).isEmpty = true := by
      rcases Bool.and_eq_true _ _ |>.mp h1 with ⟨_, h⟩
      exact h
    simp [List.isEmpty_iff.mp he]
  · rw [handleFinal_fullTranscript]
    have hne : collectFinals rs ≠ [] := by
      intro hc
      rw [hc] at h3
      simp at h3
    rw [foldl_appendT_joinSp _ _ hne (collectFinals_ne_empty rs)]
  · have he : collectFinals rs = [] := by
      by_contra hc
      apply h3
      simp [List.isEmpty_iff]
      exact hc
    simp [he]

/-- All finalized (trimmed, non-empty) slot texts of a session, in
recognition order. -/
def sessionFinals (cbs : List (Nat × List SRResult)) : List String :=
  (cbs.map (fun cb => collectFinals cb.2)).flatten

theorem sessionFinals_ne_empty (cbs : List (Nat × List SRResult)) :
    ∀ f ∈ sessionFinals cbs, f ≠ "" := by
  intro f hf
  unfold sessionFinals at hf
  rcases List.mem_flatten.mp hf with ⟨l, hl, hfl⟩
  rcases List.mem_map.mp hl with ⟨cb, _, rfl⟩
  exact collectFinals_ne_empty _ f hfl

theorem processCallbacks_fullTranscript (cfg : VoiceConfig) (st : VoiceState)
    (cbs : List (Nat × List SRResult)) :
    (processCallbacks cfg st cbs).1.fullTranscript =
      List.foldl appendT st.fullTranscript (sessionFinals cbs) := by
  induction cbs generalizing st with
  | nil => simp [processCallbacks, sessionFinals]
  | cons cb rest ih =>
    rcases cb with ⟨now, rs⟩
    simp only [processCallbacks]
    rw [ih, onResult_fullTranscript]
    simp [sessionFinals, List.foldl_append]

/-- C1: if the finalized slots delivered across a session's callbacks are,
in recognizer order, `F1, F2, F3` (with any interleaving of interim
slots), the accumulated full transcript is `F1 ++ " " ++ F2 ++ " " ++ F3`:
nothing reordered, dropped or duplicated, and interims contribute
nothing. -/
theorem transcript_order_preserved (cfg : VoiceConfig)
    (cbs : List (Nat × List SRResult)) (F1 F2 F3 : String)
    (h : sessionFinals cbs = [F1, F2, F3]) :
    (processCallbacks cfg initState cbs).1.fullTranscript =
      F1 ++ " " ++ F2 ++ " " ++ F3 := by
  have h1 : F1 ≠ "" := sessionFinals_ne_empty cbs F1 (by rw [h]; simp)
  rw [processCallbacks_fullTranscript, h]
  have e1 : appendT "" F1 = F1 := by simp [appendT]
  have e2 : appendT F1 F2 = F1 ++ " " ++ F2 := by simp [appendT, h1]
  have e3 : appendT (F1 ++ " " ++ F2) F3 = F1 ++ " " ++ F2 ++ " " ++ F3 := by
    simp [appendT, appendSp_ne_empty F1 F2]
  show appendT (appendT (appendT initState.fullTranscript F1) F2) F3 = _
  show appendT (appendT (appendT "" F1) F2) F3 = _
  rw [e1, e2, e3]

/-- C1 witness: a concrete three-final session with interims interleaved. -/
theorem transcript_order_preserved_witness :
    sessionFinals
        [(0, [⟨"hel", false⟩, ⟨" hello there ", true⟩]),
         (1000, [⟨"how are", true⟩, ⟨"x", false⟩]),
         (2000, [⟨"", false⟩]), (2500, [⟨"good", true⟩])] =
      ["hello there", "how are", "good"] ∧
    (processCallbacks cfgEmpty initState
        [(0, [⟨"hel", false⟩, ⟨" hello there ", true⟩]),
         (1000, [⟨"how are", true⟩, ⟨"x", false⟩]),
         (2000, [⟨"", false⟩]), (2500, [⟨"good", true⟩])]).1.fullTranscript =
      "hello there" ++ " " ++ "how are" ++ " " ++ "good" :=
  ⟨by decide,
    transcript_order_preserved cfgEmpty _ "hello there" "how are" "good" (by decide)⟩

/-! Trimming facts and the note-mode step. -/

theorem trimList_ne_nil (l : List Char) (c : Char) (hc : c ∈ l)
    (hw : isWs c = false) : trimList l ≠ [] := by
  intro h
  unfold trimList at h
  have h2 : (l.dropWhile isWs).reverse.dropWhile isWs = [] := by
    rwa [List.reverse_eq_nil_iff] at h
  have h3 := List.dropWhile_eq_nil_iff.mp h2
  have h5 : c ∈ l.dropWhile isWs := by
    have hsplit := List.takeWhile_append_dropWhile (p := isWs) (l := l)
    rw [← hsplit] at hc
    rcases List.mem_append.mp hc with htk | hdw
    · exact absurd (List.mem_takeWhile_imp htk) (by simp [hw])
    · exact hdw
  have := h3 c (List.mem_reverse.mpr h5)
  simp [hw] at this

theorem exists_nonWs_of_trimmed (u : String) (hu : u ≠ "") (ht : trimS u = u) :
    ∃ c ∈ u.data, isWs c = false := by
  by_contra hall
  push_neg at hall
  have hws : ∀ c ∈ u.data, isWs c = true := by
    intro c hc
    cases hwc : isWs c
    · exact absurd hwc (hall c hc)
    · rfl
  have hdw : u.data.dropWhile isWs = [] := List.dropWhile_eq_nil_iff.mpr hws
  have : trimS u = "" := by
    unfold trimS trimList
    rw [hdw]
    rfl
  rw [ht] at this
  exact hu this

theorem trimS_appendT_ne (b u : String) (hu : u ≠ "") (ht : trimS u = u) :
    trimS (appendT b u) ≠ "" := by
  rcases exists_nonWs_of_trimmed u hu ht with ⟨c, hc, hw⟩
  have hmem : c ∈ (appendT b u).data := by
    unfold appendT
    split_ifs
    · exact hc
    · simp only [String.data_append]
      exact List.mem_append_right _ hc
  intro hcontra
  have : trimList (appendT b u).data = [] := by
    have := congrArg String.data hcontra
    simpa [trimS] using this
  exact trimList_ne_nil _ c hmem hw this

theorem commandActions_append (a b : List VEvent) :
    commandActions (a ++ b) = commandActions a ++ commandActions b :=
  List.filterMap_append a b _

theorem transcriptEvents_append (a b : List VEvent) :
    transcriptEvents (a ++ b) = transcriptEvents a ++ transcriptEvents b :=
  List.filter_append a b

/-- `_emitStopNote` in note mode with a non-empty trimmed buffer: the final
note is emitted, then `stop_note`. -/
theorem emitStopNote_of_nonempty (st : VoiceState) (hn : st.noteMode = true)
    (hb : trimS st.noteBuffer ≠ "") :
    emitStopNote st = ({ st with noteMode := false, noteBuffer := "" },
      [VEvent.transcript (trimS st.noteBuffer) true,
       VEvent.command "stop_note" "create"]) := by
  unfold emitStopNote
  simp [hn, hb]

/-- The two note-mode branches of the final-utterance step. -/
theorem handleFinalAfterDetect_note (cfg : VoiceConfig) (st2 : VoiceState)
    (evD : List VEvent) (u : String) (hn2 : st2.noteMode = true) :
    (reTest createRE (toLowerS u).data = false →
      handleFinalAfterDetect cfg st2 evD u =
        ({ st2 with noteBuffer := appendT st2.noteBuffer u },
          evD ++ [.transcript u true])) ∧
    (reTest createRE (toLowerS u).data = true →
      trimS (appendT st2.noteBuffer u) ≠ "" →
      handleFinalAfterDetect cfg st2 evD u =
        ({ st2 with noteMode := false, noteBuffer := "" },
          evD ++ [.transcript u true] ++
            [.transcript (trimS (appendT st2.noteBuffer u)) true,
             .command "stop_note" "create"])) := by
  constructor
  · intro hcr
    unfold handleFinalAfterDetect
    rw [if_pos hn2, if_neg (by simp [hcr])]
  · intro hcr hb
    unfold handleFinalAfterDetect
    rw [if_pos hn2, if_pos hcr,
      emitStopNote_of_nonempty { st2 with noteBuffer := appendT st2.noteBuffer u }
        hn2 hb]

/-- C10: when stop-note triggers (via `_emitStopNote`, as the "create"
command and `stop()` both do) while the note buffer trims to empty,
`onCommand('stop_note', 'create')` still fires and note mode and the
buffer reset, but no `onTranscript` is made for the note. -/
theorem empty_note_no_transcript (st : VoiceState) (hn : st.noteMode = true)
    (hr : st.hasRec = true) (hb : trimS st.noteBuffer = "") :
    (emitStopNote st).2 = [VEvent.command "stop_note" "create"] ∧
    (emitStopNote st).1.noteMode = false ∧
    (emitStopNote st).1.noteBuffer = "" ∧
    (stop st).2 = [VEvent.listenState false, VEvent.command "stop_note" "create"] ∧
    (stop st).1.noteMode = false ∧
    (stop st).1.noteBuffer = "" := by
  unfold stop emitStopNote
  simp [hn, hr, hb]

/-- C10 witness: a note started and immediately stopped by `stop()`. -/
theorem empty_note_no_transcript_witness :
    (emitStopNote { initState with noteMode := true, hasRec := true }).2 =
      [VEvent.command "stop_note" "create"] ∧
    (emitStopNote { initState with noteMode := true, hasRec := true }).1.noteMode
      = false ∧
    (emitStopNote { initState with noteMode := true, hasRec := true }).1.noteBuffer
      = "" ∧
    (stop { initState with noteMode := true, hasRec := true }).2 =
      [VEvent.listenState false, VEvent.command "stop_note" "create"] ∧
    (stop { initState with noteMode := true, hasRec := true }).1.noteMode = false ∧
    (stop { initState with noteMode := true, hasRec := true }).1.noteBuffer = "" :=
  empty_note_no_transcript _ rfl rfl rfl

/-- C2: while note mode is on, a finalized utterance without the standalone
word "create" (such as "mute") fires no `onCommand` at all — it is
delivered through `onTranscript(text, true)` and appended to the note
buffer; an utterance with "create" ends note mode, fires exactly
`onCommand('stop_note', 'create')`, and also emits a final `onTranscript`
carrying the trimmed note buffer. -/
theorem noteMode_command_override (cfg : VoiceConfig) (st : VoiceState)
    (u : String) (hn : st.noteMode = true) :
    (reTest createRE (toLowerS u).data = false →
      commandActions (handleFinal cfg st u).2 = [] ∧
      VEvent.transcript u true ∈ (handleFinal cfg st u).2 ∧
      (handleFinal cfg st u).1.noteMode = true ∧
      (handleFinal cfg st u).1.noteBuffer = appendT st.noteBuffer u) ∧
    (reTest createRE (toLowerS u).data = true → u ≠ "" → trimS u = u →
      commandActions (handleFinal cfg st u).2 = ["stop_note"] ∧
      VEvent.command "stop_note" "create" ∈ (handleFinal cfg st u).2 ∧
      transcriptEvents (handleFinal cfg st u).2 =
        [VEvent.transcript u true,
         VEvent.transcript (trimS (appendT st.noteBuffer u)) true] ∧
      (handleFinal cfg st u).1.noteMode = false ∧
      (handleFinal cfg st u).1.noteBuffer = "") := by
  have hn2 : (detectMRNAndTemplate
      { st with fullTranscript := appendT st.fullTranscript u } u).1.noteMode = true := by
    rw [(detect_preserves _ _).2.1]
    exact hn
  have hbuf : (detectMRNAndTemplate
      { st with fullTranscript := appendT st.fullTranscript u } u).1.noteBuffer =
      st.noteBuffer :=
    (detect_preserves _ _).2.2.1
  have hshape := detect_events_shape
    { st with fullTranscript := appendT st.fullTranscript u } u
  have hbr := handleFinalAfterDetect_note cfg
    (detectMRNAndTemplate { st with fullTranscript := appendT st.fullTranscript u } u).1
    (detectMRNAndTemplate { st with fullTranscript := appendT st.fullTranscript u } u).2
    u hn2
  constructor
  · intro hcr
    unfold handleFinal
    rw [hbr.1 hcr]
    refine ⟨?_, ?_, ?_, ?_⟩
    · rw [commandActions_append, hshape.1]
      simp [commandActions]
    · exact List.mem_append_right _ (by simp)
    · exact hn2
    · show appendT (detectMRNAndTemplate
        { st with fullTranscript := appendT st.fullTranscript u } u).1.noteBuffer u =
        appendT st.noteBuffer u
      rw [hbuf]
  · intro hcr hu ht
    have hbne : trimS (appendT (detectMRNAndTemplate
        { st with fullTranscript := appendT st.fullTranscript u } u).1.noteBuffer u)
        ≠ "" := by
      rw [hbuf]
      exact trimS_appendT_ne _ u hu ht
    unfold handleFinal
    rw [hbr.2 hcr hbne]
    refine ⟨?_, ?_, ?_, rfl, rfl⟩
    · rw [commandActions_append, commandActions_append, hshape.1]
      simp [commandActions]
    · simp
    · rw [transcriptEvents_append, transcriptEvents_append, hshape.2]
      simp [transcriptEvents, hbuf]

/-- C2 witness: "mute" then "create" while taking a note. -/
theorem noteMode_command_override_witness :
    (commandActions (handleFinal cfgEmpty
        { initState with noteMode := true, noteBuffer := "my note" } "mute").2 = [] ∧
      VEvent.transcript "mute" true ∈ (handleFinal cfgEmpty
        { initState with noteMode := true, noteBuffer := "my note" } "mute").2 ∧
      (handleFinal cfgEmpty
        { initState with noteMode := true, noteBuffer := "my note" } "mute").1.noteMode
        = true ∧
      (handleFinal cfgEmpty
        { initState with noteMode := true, noteBuffer := "my note" } "mute").1.noteBuffer
        = appendT "my note" "mute") ∧
    (commandActions (handleFinal cfgEmpty
        { initState with noteMode := true, noteBuffer := "my note" } "create").2 =
        ["stop_note"] ∧
      VEvent.command "stop_note" "create" ∈ (handleFinal cfgEmpty
        { initState with noteMode := true, noteBuffer := "my note" } "create").2 ∧
      transcriptEvents (handleFinal cfgEmpty
        { initState with noteMode := true, noteBuffer := "my note" } "create").2 =
        [VEvent.transcript "create" true,
         VEvent.transcript (trimS (appendT "my note" "create")) true] ∧
      (handleFinal cfgEmpty
        { initState with noteMode := true, noteBuffer := "my note" } "create").1.noteMode
        = false ∧
      (handleFinal cfgEmpty
        { initState with noteMode := true, noteBuffer := "my note" } "create").1.noteBuffer
        = "") :=
  ⟨(noteMode_command_override cfgEmpty
      { initState with noteMode := true, noteBuffer := "my note" } "mute" rfl).1
      (by decide),
    (noteMode_command_override cfgEmpty
      { initState with noteMode := true, noteBuffer := "my note" } "create" rfl).2
      (by decide) (by decide) (by decide)⟩

/-- C3: from a detection state with both fields unset, an utterance with
only an MRN fires no combined event; a later utterance with only a
matching template fires exactly one combined event carrying the stored MRN
and the new template. -/
theorem combined_detection_trigger (st : VoiceState) (t1 t2 m tpl : String)
    (h1 : st.detectedMRN = none) (h2 : st.detectedTemplate = none)
    (hm1 : detectMRN t1 = some m)
    (ht1 : detectTemplate st.availableTemplates t1 = none)
    (hm2 : detectMRN t2 = none)
    (ht2 : detectTemplate st.availableTemplates t2 = some tpl) :
    (detectMRNAndTemplate st t1).2 = [] ∧
    (detectMRNAndTemplate st t1).1.detectedMRN = some m ∧
    (detectMRNAndTemplate (detectMRNAndTemplate st t1).1 t2).2 =
      [VEvent.mrnTemplate m tpl (detectMRNAndTemplate st t1).1.fullTranscript] ∧
    (detectMRNAndTemplate (detectMRNAndTemplate st t1).1 t2).1.detectedMRN =
      some m ∧
    (detectMRNAndTemplate (detectMRNAndTemplate st t1).1 t2).1.detectedTemplate =
      some tpl := by
  have ht1ne : t1 ≠ "" := by
    intro h
    rw [h] at hm1
    simp [detectMRN] at hm1
  have ht2ne : t2 ≠ "" := by
    intro h
    rw [h] at ht2
    simp [detectTemplate] at ht2
  have hs1 : detectStep1 st t1 = { st with detectedMRN := some m } := by
    unfold detectStep1
    rw [hm1]
    simp [h1]
  have hs2 : detectStep2 { st with detectedMRN := some m } t1 =
      { st with detectedMRN := some m } := by
    unfold detectStep2
    have hscr : detectTemplate
        ({ st with detectedMRN := some m } : VoiceState).availableTemplates t1 =
        none := ht1
    rw [hscr]
  have hfirst : detectMRNAndTemplate st t1 =
      ({ st with detectedMRN := some m }, []) := by
    unfold detectMRNAndTemplate
    rw [if_neg ht1ne, hs1, hs2]
    simp [mrnTemplateEvents, h2]
  have hs1' : detectStep1 { st with detectedMRN := some m } t2 =
      { st with detectedMRN := some m } := by
    unfold detectStep1
    rw [hm2]
  have hs2' : detectStep2 { st with detectedMRN := some m } t2 =
      { st with detectedMRN := some m, detectedTemplate := some tpl } := by
    unfold detectStep2
    have hscr : detectTemplate
        ({ st with detectedMRN := some m } : VoiceState).availableTemplates t2 =
        some tpl := ht2
    rw [hscr]
    simp [h2]
  have hsecond : detectMRNAndTemplate { st with detectedMRN := some m } t2 =
      ({ st with detectedMRN := some m, detectedTemplate := some tpl },
        [VEvent.mrnTemplate m tpl st.fullTranscript]) := by
    unfold detectMRNAndTemplate
    rw [if_neg ht2ne, hs1', hs2']
    simp [mrnTemplateEvents]
  refine ⟨by rw [hfirst], by rw [hfirst], ?_, ?_, ?_⟩ <;> rw [hfirst] <;>
    simp only [] <;> rw [hsecond]

/-- C3 witness: "MRN AB123" then "consultation please" against the template
list `["Consultation Note Form"]`. -/
theorem combined_detection_trigger_witness :
    (detectMRNAndTemplate
        { initState with availableTemplates := ["Consultation Note Form"] }
        "MRN AB123").2 = [] ∧
    (detectMRNAndTemplate
        { initState with availableTemplates := ["Consultation Note Form"] }
        "MRN AB123").1.detectedMRN = some "AB123" ∧
    (detectMRNAndTemplate (detectMRNAndTemplate
        { initState with availableTemplates := ["Consultation Note Form"] }
        "MRN AB123").1 "consultation please").2 =
      [VEvent.mrnTemplate "AB123" "Consultation Note Form"
        (detectMRNAndTemplate
          { initState with availableTemplates := ["Consultation Note Form"] }
          "MRN AB123").1.fullTranscript] ∧
    (detectMRNAndTemplate (detectMRNAndTemplate
        { initState with availableTemplates := ["Consultation Note Form"] }
        "MRN AB123").1 "consultation please").1.detectedMRN = some "AB123" ∧
    (detectMRNAndTemplate (detectMRNAndTemplate
        { initState with availableTemplates := ["Consultation Note Form"] }
        "MRN AB123").1 "consultation please").1.detectedTemplate =
      some "Consultation Note Form" :=
  combined_detection_trigger
    { initState with availableTemplates := ["Consultation Note Form"] }
    "MRN AB123" "consultation please" "AB123" "Consultation Note Form"
    rfl rfl (by decide) (by decide) (by decide) (by decide)

/-! Action-vocabulary facts for the command surface. -/

theorem emitStartNote_actions (st : VoiceState) :
    ∀ a ∈ commandActions (emitStartNote st).2, a = "start_note" := by
  unfold emitStartNote
  split <;> simp [commandActions]

theorem emitStopNote_actions (st : VoiceState) :
    ∀ a ∈ commandActions (emitStopNote st).2, a = "stop_note" := by
  unfold emitStopNote
  split
  · simp [commandActions]
  · split_ifs <;> simp [commandActions]

theorem classifyBuiltin_mem (text : List Char) (a : String)
    (h : classifyBuiltin text = some a) : a ∈ allowedActions := by
  unfold classifyBuiltin at h
  rcases hf : builtinRules.find? (fun r => reTest r.1 text) with _ | r
  · rw [hf] at h
    cases h
  · rw [hf] at h
    simp only [Option.map_some', Option.some.injEq] at h
    have hrmem : r ∈ builtinRules := List.mem_of_find?_eq_some hf
    simp only [builtinRules, List.mem_cons, List.not_mem_nil, or_false] at hrmem
    rcases hrmem with h1 | h1 | h1 | h1 | h1 | h1 | h1 | h1 | h1 | h1 | h1 | h1 <;>
      (subst h1; rw [← h]; decide)

theorem parseCommandText_actions (cfg : VoiceConfig) (st : VoiceState)
    (text : String) (hcm : cfg.customMap = []) :
    (∀ a, (parseCommandText cfg st text).1 = some a → a ∈ allowedActions) ∧
    (∀ a ∈ commandActions (parseCommandText cfg st text).2.2, a ∈ allowedActions) := by
  unfold parseCommandText
  by_cases htext : text = ""
  · rw [if_pos htext]
    exact ⟨fun a h => Option.noConfusion h,
      fun a ha => absurd ha (List.not_mem_nil a)⟩
  · rw [if_neg htext]
    have hfc : findCustom cfg.customMap text = none := by rw [hcm]; rfl
    simp only [hfc]
    rcases hcb : classifyBuiltin text.data with _ | b
    · exact ⟨fun a h => Option.noConfusion h,
        fun a ha => absurd ha (List.not_mem_nil a)⟩
    · simp only []
      split_ifs with hA hB
      · exact ⟨fun a h => by
            rw [Option.some.injEq] at h
            rw [← h]
            exact classifyBuiltin_mem text.data b hcb,
          fun a ha => by
            rw [emitStartNote_actions st a ha]
            decide⟩
      · exact ⟨fun a h => by
            rw [Option.some.injEq] at h
            rw [← h]
            exact classifyBuiltin_mem text.data b hcb,
          fun a ha => by
            rw [emitStopNote_actions st a ha]
            decide⟩
      · exact ⟨fun a h => by
            rw [Option.some.injEq] at h
            rw [← h]
            exact classifyBuiltin_mem text.data b hcb,
          fun a ha => absurd ha (List.not_mem_nil a)⟩

theorem handleFinal_actions (cfg : VoiceConfig) (st : VoiceState) (u : String)
    (hcm : cfg.customMap = []) :
    ∀ a ∈ commandActions (handleFinal cfg st u).2, a ∈ allowedActions := by
  intro a ha
  unfold handleFinal handleFinalAfterDetect at ha
  have hshape := (detect_events_shape
    { st with fullTranscript := appendT st.fullTranscript u } u).1
  have hcat : commandActions [VEvent.transcript u true] = [] := rfl
  split_ifs at ha with h1 h2
  · rw [commandActions_append, commandActions_append, hshape, hcat,
      List.nil_append, List.nil_append] at ha
    rw [emitStopNote_actions _ a ha]
    decide
  · rw [commandActions_append, hshape, hcat, List.nil_append] at ha
    cases ha
  · split at ha
    next action heq =>
      rw [commandActions_append, commandActions_append, hshape,
        List.nil_append] at ha
      rcases List.mem_append.mp ha with hl | hr
      · exact (parseCommandText_actions cfg _ _ hcm).2 a hl
      · have hra : a = action := by
          simpa [commandActions] using hr
        rw [hra]
        exact (parseCommandText_actions cfg _ _ hcm).1 action heq
    next heq =>
      rw [commandActions_append, commandActions_append, hshape,
        List.nil_append] at ha
      rcases List.mem_append.mp ha with hl | hr
      · exact (parseCommandText_actions cfg _ _ hcm).2 a hl
      · simp [commandActions] at hr

/-- C8 (amended): with an empty caller-supplied `customMap`, every
`onCommand` action fired while processing a recognizer callback lies in
the documented fixed set. -/
theorem onCommand_actions_fixed_set (cfg : VoiceConfig) (st : VoiceState)
    (now : Nat) (rs : List SRResult) (a : String) (hcm : cfg.customMap = [])
    (ha : a ∈ commandActions (onResult cfg st now rs).2) : a ∈ allowedActions := by
  unfold onResult at ha
  split_ifs at ha with h1 h2 h3
  · simp [commandActions] at ha
  · simp [commandActions] at ha
  · exact handleFinal_actions cfg st _ hcm a ha
  · simp [commandActions] at ha

/-- C8 witness: a concrete callback whose classified command lands in the
fixed set. -/
theorem onCommand_actions_fixed_set_witness :
    "disconnect" ∈ commandActions
      (onResult cfgEmpty initState 0 [⟨"disconnect now", true⟩]).2 ∧
    "disconnect" ∈ allowedActions :=
  ⟨by decide,
    onCommand_actions_fixed_set cfgEmpty initState 0 [⟨"disconnect now", true⟩]
      "disconnect" rfl (by decide)⟩

/-- C8 counterexample: with a caller-supplied override mapping everything
to the action "bogus", `onCommand` fires with an action outside the fixed
set, refuting the claim as stated for arbitrary `customMap`s. -/
theorem onCommand_actions_fixed_set_counterexample :
    commandActions (onResult
        { customMap := [(fun _ => true, "bogus")], throttleMs := 800 }
        initState 0 [⟨"hello friend", true⟩]).2 = ["bogus"] ∧
    "bogus" ∉ allowedActions := by
  constructor
  · decide
  · decide

/-! Engine metatheory for the MRN rejection property: a regex that must
consume a letter cannot match letter-free text. -/

/-- Does every character accepted by this class satisfy `isAsciiAlpha`? -/
def ccOnlyAlpha : CC → Bool
  | .anyOf cs => cs.all isAsciiAlpha
  | .upper => true
  | .alphaCI => true
  | _ => false

theorem ccOnlyAlpha_sound (c : CC) (h : ccOnlyAlpha c = true) (ch : Char)
    (he : CC.eval c ch = true) : isAsciiAlpha ch = true := by
  cases c <;> simp only [ccOnlyAlpha] at h <;> simp only [CC.eval] at he
  · exact List.all_eq_true.mp h ch (by
      simp only [List.contains, List.elem_eq_mem, decide_eq_true_eq] at he
      exact he)
  · simp only [isUpperAlpha] at he
    simp [isAsciiAlpha, he]
  · exact he
  all_goals cases h

/-- Every successful match of such a regex consumes at least one
`isAsciiAlpha` character. -/
def mustAlpha : RE → Bool
  | .eps => false
  | .wb => false
  | .cls c => ccOnlyAlpha c
  | .seq a b => mustAlpha a || mustAlpha b
  | .alt a b => mustAlpha a && mustAlpha b
  | .starC _ => false
  | .grp a => mustAlpha a

theorem starGreedy_congr (c : CC) (prev : Option Char) (s : List Char)
    (cap : Cap) (k1 k2 : Cap → Option Char → List Char → Option Cap)
    (hk : ∀ cp p' s', s' <:+ s → k1 cp p' s' = k2 cp p' s') :
    starGreedy c prev s cap k1 = starGreedy c prev s cap k2 := by
  induction s generalizing prev with
  | nil => exact hk cap prev [] (List.suffix_refl [])
  | cons ch rest ih =>
    unfold starGreedy
    split_ifs with hc
    · have h1 : starGreedy c (some ch) rest cap k1 =
          starGreedy c (some ch) rest cap k2 :=
        ih (some ch)
          (fun cp p' s' hs => hk cp p' s' (hs.trans (List.suffix_cons ch rest)))
      have h2 : k1 cap prev (ch :: rest) = k2 cap prev (ch :: rest) :=
        hk _ _ _ (List.suffix_refl _)
      simp only [h1, h2]
    · exact hk _ _ _ (List.suffix_refl _)

theorem reMatch_congr (r : RE) : ∀ (prev : Option Char) (s : List Char)
    (cap : Cap) (k1 k2 : Cap → Option Char → List Char → Option Cap),
    (∀ cp p' s', s' <:+ s → k1 cp p' s' = k2 cp p' s') →
    reMatch r prev s cap k1 = reMatch r prev s cap k2 := by
  induction r with
  | eps =>
    intro prev s cap k1 k2 hk
    exact hk _ _ _ (List.suffix_refl _)
  | cls c =>
    intro prev s cap k1 k2 hk
    unfold reMatch
    cases s with
    | nil => rfl
    | cons ch rest =>
      show (if c.eval ch = true then k1 cap (some ch) rest else none) =
        (if c.eval ch = true then k2 cap (some ch) rest else none)
      split_ifs with hc
      · exact hk _ _ _ (List.suffix_cons ch rest)
      · rfl
  | seq a b iha ihb =>
    intro prev s cap k1 k2 hk
    unfold reMatch
    apply iha
    intro cp p' s' hs
    apply ihb
    intro cp2 p2 s2 hs2
    exact hk _ _ _ (hs2.trans hs)
  | alt a b iha ihb =>
    intro prev s cap k1 k2 hk
    unfold reMatch
    have h1 := iha prev s cap k1 k2 hk
    have h2 := ihb prev s cap k1 k2 hk
    simp only [h1, h2]
  | starC c =>
    intro prev s cap k1 k2 hk
    exact starGreedy_congr c prev s cap k1 k2 hk
  | wb =>
    intro prev s cap k1 k2 hk
    unfold reMatch
    split_ifs
    · exact hk _ _ _ (List.suffix_refl _)
    · rfl
  | grp a iha =>
    intro prev s cap k1 k2 hk
    unfold reMatch
    apply iha
    intro cp p' s' hs
    exact hk _ _ _ hs

theorem starGreedy_none (c : CC) (prev : Option Char) (s : List Char)
    (cap : Cap) (k : Cap → Option Char → List Char → Option Cap)
    (hk : ∀ cp p' s', k cp p' s' = none) :
    starGreedy c prev s cap k = none := by
  induction s generalizing prev with
  | nil => exact hk _ _ _
  | cons ch rest ih =>
    unfold starGreedy
    split_ifs with hc
    · simp only [ih (some ch), hk]
      rfl
    · exact hk _ _ _

theorem reMatch_none (r : RE) : ∀ (prev : Option Char) (s : List Char)
    (cap : Cap) (k : Cap → Option Char → List Char → Option Cap),
    (∀ cp p' s', k cp p' s' = none) → reMatch r prev s cap k = none := by
  induction r with
  | eps => intro prev s cap k hk; exact hk _ _ _
  | cls c =>
    intro prev s cap k hk
    unfold reMatch
    cases s with
    | nil => rfl
    | cons ch rest =>
      show (if c.eval ch = true then k cap (some ch) rest else none) = none
      split_ifs <;> first | exact hk _ _ _ | rfl
  | seq a b iha ihb =>
    intro prev s cap k hk
    unfold reMatch
    exact iha _ _ _ _ (fun cp p' s' => ihb _ _ _ _ (fun _ _ _ => hk _ _ _))
  | alt a b iha ihb =>
    intro prev s cap k hk
    unfold reMatch
    simp only [iha _ _ _ _ hk, ihb _ _ _ _ hk]
    rfl
  | starC c =>
    intro prev s cap k hk
    exact starGreedy_none c prev s cap k hk
  | wb =>
    intro prev s cap k hk
    unfold reMatch
    split_ifs <;> first | exact hk _ _ _ | rfl
  | grp a iha =>
    intro prev s cap k hk
    unfold reMatch
    exact iha _ _ _ _ (fun _ _ _ => hk _ _ _)

theorem mustAlpha_reMatch_none (r : RE) (hr : mustAlpha r = true) :
    ∀ (prev : Option Char) (s : List Char) (cap : Cap)
    (k : Cap → Option Char → List Char → Option Cap),
    (∀ c ∈ s, isAsciiAlpha c = false) → reMatch r prev s cap k = none := by
  induction r with
  | eps => cases hr
  | wb => cases hr
  | starC c => cases hr
  | cls c =>
    intro prev s cap k hs
    unfold reMatch
    cases s with
    | nil => rfl
    | cons ch rest =>
      have hev : CC.eval c ch = false := by
        cases hev : CC.eval c ch
        · rfl
        · have halpha := ccOnlyAlpha_sound c (by simpa [mustAlpha] using hr) ch hev
          rw [hs ch (by simp)] at halpha
          cases halpha
      simp [hev]
  | seq a b iha ihb =>
    intro prev s cap k hs
    unfold reMatch
    rcases Bool.or_eq_true _ _ |>.mp (by simpa [mustAlpha] using hr) with ha | hb
    · exact iha ha prev s cap _ hs
    · rw [reMatch_congr a prev s cap _ (fun _ _ _ => none)
        (fun cp p' s' hsuf =>
          ihb hb p' s' cp k (fun c hc => hs c (hsuf.subset hc)))]
      exact reMatch_none a prev s cap _ (fun _ _ _ => rfl)
  | alt a b iha ihb =>
    intro prev s cap k hs
    unfold reMatch
    rcases Bool.and_eq_true _ _ |>.mp (by simpa [mustAlpha] using hr) with ⟨ha, hb⟩
    simp only [iha ha prev s cap k hs, ihb hb prev s cap k hs]
    rfl
  | grp a iha =>
    intro prev s cap k hs
    unfold reMatch
    exact iha (by simpa [mustAlpha] using hr) prev s cap _ hs

theorem mustAlpha_reSearch_none (r : RE) (hr : mustAlpha r = true) :
    ∀ (prev : Option Char) (s : List Char),
    (∀ c ∈ s, isAsciiAlpha c = false) → reSearch r prev s = none := by
  intro prev s
  induction s generalizing prev with
  | nil =>
    intro hs
    unfold reSearch
    rw [mustAlpha_reMatch_none r hr _ _ _ _ hs]
  | cons ch rest ih =>
    intro hs
    unfold reSearch
    rw [mustAlpha_reMatch_none r hr _ _ _ _ hs]
    exact ih (some ch) (fun c hc => hs c (by simp [hc]))

theorem detectMRNList_letter_digit : ∀ (ps : List RE) (text m : List Char),
    detectMRNList ps text = some m →
    m.any isUpperAlpha = true ∧ m.any Char.isDigit = true := by
  intro ps
  induction ps with
  | nil => intro text m h; cases h
  | cons p ps ih =>
    intro text m h
    unfold detectMRNList at h
    rcases hc : reCapture p text with _ | cap
    · simp only [hc] at h
      exact ih text m h
    · simp only [hc] at h
      rcases hm : mrnFromCapture cap with _ | m'
      · simp only [hm] at h
        exact ih text m h
      · simp only [hm, Option.some.injEq] at h
        subst h
        unfold mrnFromCapture at hm
        split_ifs at hm with hg
        cases hm
        exact Bool.and_eq_true _ _ |>.mp hg

theorem mrnPatterns_mustAlpha : ∀ p ∈ mrnPatterns, mustAlpha p = true := by
  intro p hp
  simp only [mrnPatterns, List.mem_cons, List.not_mem_nil, or_false] at hp
  rcases hp with rfl | rfl | rfl | rfl | rfl <;> decide

theorem detectMRN_no_alpha (text : String)
    (h : ∀ c ∈ text.data, isAsciiAlpha c = false) : detectMRN text = none := by
  unfold detectMRN
  split_ifs with ht
  · rfl
  · have hcap : ∀ p ∈ mrnPatterns, reCapture p text.data = none := by
      intro p hp
      unfold reCapture
      rw [mustAlpha_reSearch_none p (mrnPatterns_mustAlpha p hp) none text.data h]
    have h1 := hcap mrnPat1 (by simp [mrnPatterns])
    have h2 := hcap mrnPat2 (by simp [mrnPatterns])
    have h3 := hcap mrnPat3 (by simp [mrnPatterns])
    have h4 := hcap mrnPat4 (by simp [mrnPatterns])
    have h5 := hcap mrnPat5 (by simp [mrnPatterns])
    simp [mrnPatterns, detectMRNList, h1, h2, h3, h4, h5]

/-- C4: every MRN that `_detectMRN` returns contains, after normalization,
at least one letter and at least one digit; and on text containing no
letters at all (in particular a bare all-digit token with no "MRN" keyword
context), detection returns no match — while digits-only captures reached
through the "MRN" keyword patterns get the synthetic `MRNAB` prefix and
are accepted. -/
theorem mrn_requires_letter_and_digit :
    (∀ text m, detectMRN text = some m →
      m.data.any isUpperAlpha = true ∧ m.data.any Char.isDigit = true) ∧
    (∀ text : String, (∀ c ∈ text.data, isAsciiAlpha c = false) →
      detectMRN text = none) := by
  constructor
  · intro text m h
    unfold detectMRN at h
    split_ifs at h with ht
    rcases hl : detectMRNList mrnPatterns text.data with _ | l
    · rw [hl] at h
      exact Option.noConfusion h
    · rw [hl] at h
      simp only [Option.map_some', Option.some.injEq] at h
      rw [← h]
      exact detectMRNList_letter_digit mrnPatterns text.data l hl
  · exact detectMRN_no_alpha

/-- C4 witness: the digits-only "MRN" branch passes the guard with its
synthetic prefix, and a letter-free text with a bare all-digit token is
rejected. -/
theorem mrn_requires_letter_and_digit_witness :
    ("MRNAB123".data.any isUpperAlpha = true ∧
      "MRNAB123".data.any Char.isDigit = true) ∧
    detectMRN "4821 937" = none :=
  ⟨mrn_requires_letter_and_digit.1 "MRN 123" "MRNAB123" (by decide),
    mrn_requires_letter_and_digit.2 "4821 937" (by decide)⟩
